import Mathlib

/-!
Verification of the jrnl journaling helper (src/jrnl/jrnl.py).

File contents are modelled as lists of characters; the timestamp writer,
the date resolver and the main control flow are translated below as
executable Lean functions, and the claimed properties are proved about
those functions.
-/

/-- Boolean prefix test on character lists (structural recursion). -/
def prefOf : List Char → List Char → Bool
  | [], _ => true
  | _ :: _, [] => false
  | a :: as, b :: bs => a == b && prefOf as bs

/-- Boolean suffix test on character lists, mirroring Python `str.endswith`. -/
def endsW (s l : List Char) : Bool := prefOf s.reverse l.reverse

/-- Boolean substring test on character lists, mirroring the Python
`in` operator on strings (`todayDate in entrytext` in `writeTimestamp`). -/
def containsSub (n : List Char) : List Char → Bool
  | [] => prefOf n []
  | c :: rest => prefOf n (c :: rest) || containsSub n rest

/-- Number of positions at which `n` occurs as a substring of `l`. -/
def countOcc (n : List Char) : List Char → Nat
  | [] => if prefOf n [] then 1 else 0
  | c :: rest => (if prefOf n (c :: rest) then 1 else 0) + countOcc n rest

/-- Propositional form of the substring relation. -/
def SubStrOf (n l : List Char) : Prop := ∃ pre post, l = pre ++ n ++ post

/-- Content-level translation of `jrnl.writeTimestamp` (jrnl.py lines
109-137).  The `Option` argument is the current state of the entry file:
`none` when the file does not exist, `some entrytext` when it exists with
content `entrytext`.  The result is the full content of the file after the
call.  The date and time arguments are the strings the Python code obtains
from `todayDatetime.strftime`. -/
def writeTimestamp (todayDate todayTime : List Char) : Option (List Char) → List Char
  | none => todayDate ++ '\n' :: (todayTime ++ ['\n'])
  | some entrytext =>
    let printDate : Bool := !containsSub todayDate entrytext
    let printNewLine : Bool := !endsW ['\n', '\n'] entrytext
    entrytext ++ ((if printNewLine then ['\n'] else []) ++
      ((if printDate then todayDate ++ ['\n'] else []) ++ (todayTime ++ ['\n', '\n'])))

theorem prefOf_iff (n l : List Char) : prefOf n l = true ↔ n <+: l := by
  induction n generalizing l with
  | nil => simp [prefOf]
  | cons a as ih =>
    cases l with
    | nil => simp [prefOf]
    | cons b bs => simp [prefOf, List.cons_prefix_cons, ih]

theorem endsW_iff (s l : List Char) : endsW s l = true ↔ s <:+ l := by
  constructor
  · intro h
    obtain ⟨t, ht⟩ := (prefOf_iff _ _).mp h
    refine ⟨t.reverse, ?_⟩
    have h2 := congrArg List.reverse ht
    simpa using h2
  · rintro ⟨t, rfl⟩
    refine (prefOf_iff _ _).mpr ⟨t.reverse, ?_⟩
    simp

theorem containsSub_iff (n l : List Char) : containsSub n l = true ↔ SubStrOf n l := by
  induction l with
  | nil =>
    constructor
    · intro h
      obtain ⟨t, ht⟩ := (prefOf_iff _ _).mp h
      rcases List.append_eq_nil.mp ht with ⟨rfl, rfl⟩
      exact ⟨[], [], rfl⟩
    · rintro ⟨pre, post, h⟩
      rcases List.append_eq_nil.mp h.symm with ⟨h1, rfl⟩
      rcases List.append_eq_nil.mp h1 with ⟨rfl, rfl⟩
      simp [containsSub, prefOf]
  | cons c rest ih =>
    constructor
    · intro h
      rcases Bool.or_eq_true_iff.mp h with h1 | h1
      · obtain ⟨t, ht⟩ := (prefOf_iff _ _).mp h1
        exact ⟨[], t, by simp [ht.symm]⟩
      · obtain ⟨pre, post, h2⟩ := ih.mp h1
        exact ⟨c :: pre, post, by simp [h2]⟩
    · rintro ⟨pre, post, h⟩
      cases pre with
      | nil =>
        refine Bool.or_eq_true_iff.mpr (Or.inl ((prefOf_iff _ _).mpr ⟨post, ?_⟩))
        simpa using h.symm
      | cons p ps =>
        have h2 : rest = ps ++ n ++ post := by
          simpa using congrArg List.tail h
        exact Bool.or_eq_true_iff.mpr (Or.inr (ih.mpr ⟨ps, post, h2⟩))

instance (n l : List Char) : Decidable (SubStrOf n l) :=
  decidable_of_iff (containsSub n l = true) (containsSub_iff n l)

theorem countOcc_nil (n : List Char) (h : n ≠ []) : countOcc n [] = 0 := by
  cases n with
  | nil => exact absurd rfl h
  | cons a as => simp [countOcc, prefOf]

theorem prefOf_append_nl : ∀ (n : List Char), '\n' ∉ n →
    ∀ (a b : List Char), prefOf n (a ++ '\n' :: b) = prefOf n a
  | [], _, _, _ => by simp [prefOf]
  | x :: xs, h, [], b => by
    have hx : (x == '\n') = false := by
      refine beq_eq_false_iff_ne.mpr ?_
      intro hh
      exact h (hh ▸ List.mem_cons_self x xs)
    simp [prefOf, hx]
  | x :: xs, h, y :: ys, b => by
    have hxs : '\n' ∉ xs := fun hm => h (List.mem_cons_of_mem _ hm)
    simp only [List.cons_append, prefOf, List.append_eq]
    rw [prefOf_append_nl xs hxs ys b]

theorem countOcc_append_nl (n : List Char) (hne : n ≠ []) (hnl : '\n' ∉ n)
    (a b : List Char) :
    countOcc n (a ++ '\n' :: b) = countOcc n a + countOcc n ('\n' :: b) := by
  induction a with
  | nil => simp [countOcc_nil n hne]
  | cons c cs ih =>
    have hpre : prefOf n (c :: (cs ++ '\n' :: b)) = prefOf n (c :: cs) := by
      have h2 := prefOf_append_nl n hnl (c :: cs) b
      simpa using h2
    simp only [List.cons_append, countOcc, List.append_eq, hpre, ih]
    omega

theorem countOcc_head_nl (n : List Char) (hne : n ≠ []) (hnl : '\n' ∉ n)
    (b : List Char) : countOcc n ('\n' :: b) = countOcc n b := by
  cases n with
  | nil => exact absurd rfl hne
  | cons x xs =>
    have hx : (x == '\n') = false := by
      refine beq_eq_false_iff_ne.mpr ?_
      intro hh
      exact hnl (hh ▸ List.mem_cons_self x xs)
    simp [countOcc, prefOf, hx]

theorem countOcc_short (n : List Char) :
    ∀ (l : List Char), l.length < n.length → countOcc n l = 0
  | [], h => by
    cases n with
    | nil => simp at h
    | cons a as => simp [countOcc, prefOf]
  | c :: cs, h => by
    have hp : prefOf n (c :: cs) = false := by
      cases hp : prefOf n (c :: cs) with
      | false => rfl
      | true =>
        have := List.IsPrefix.length_le ((prefOf_iff _ _).mp hp)
        omega
    have hcs : cs.length < n.length := by
      simp only [List.length_cons] at h
      omega
    simp [countOcc, hp, countOcc_short n cs hcs]

theorem countOcc_self (n : List Char) (h : n ≠ []) : countOcc n n = 1 := by
  cases n with
  | nil => exact absurd rfl h
  | cons x xs =>
    have h1 : prefOf (x :: xs) (x :: xs) = true :=
      (prefOf_iff _ _).mpr (List.prefix_refl _)
    have h2 : countOcc (x :: xs) xs = 0 :=
      countOcc_short (x :: xs) xs (by simp)
    simp [countOcc, h1, h2]

theorem countOcc_eq_zero_iff (n l : List Char) :
    countOcc n l = 0 ↔ containsSub n l = false := by
  induction l with
  | nil =>
    cases hp : prefOf n [] <;> simp [countOcc, containsSub, hp]
  | cons c rest ih =>
    cases hp : prefOf n (c :: rest) <;> simp [countOcc, containsSub, hp, ih]

theorem countOcc_of_length_eq (n l : List Char) (h : n.length = l.length)
    (hne : n ≠ l) : countOcc n l = 0 := by
  cases l with
  | nil =>
    have : n = [] := List.length_eq_zero.mp h
    exact absurd this hne
  | cons c cs =>
    have hp : prefOf n (c :: cs) = false := by
      cases hp : prefOf n (c :: cs) with
      | false => rfl
      | true =>
        have hpre := (prefOf_iff _ _).mp hp
        exact absurd (List.IsPrefix.eq_of_length hpre h) hne
    have h2 : countOcc n cs = 0 := by
      refine countOcc_short n cs ?_
      simp only [List.length_cons] at h
      omega
    simp [countOcc, hp, h2]

theorem writeTimestamp_some (d t c : List Char) :
    writeTimestamp d t (some c) =
      c ++ ((if endsW ['\n', '\n'] c then [] else ['\n']) ++
        ((if containsSub d c then [] else d ++ ['\n']) ++ (t ++ ['\n', '\n']))) := by
  cases h1 : endsW ['\n', '\n'] c <;> cases h2 : containsSub d c <;>
    simp [writeTimestamp, h1, h2]

/-- Claim C1: for every existing entry file, a timestamp write appends
exactly the concatenation of: one newline iff the current content does not
already end with two consecutive newline characters; the date line iff the
date string does not already appear anywhere in the existing content; then
the time line; then one blank line.  Nothing else in the file is modified
(the result is the old content followed by that suffix). -/
theorem claim_C1_append_exact (c d t : List Char) :
    writeTimestamp d t (some c) =
      c ++ ((if ['\n', '\n'] <:+ c then [] else ['\n']) ++
        ((if SubStrOf d c then [] else d ++ ['\n']) ++ ((t ++ ['\n']) ++ ['\n']))) := by
  rw [writeTimestamp_some]
  have e1 : endsW ['\n', '\n'] c = true ↔ ['\n', '\n'] <:+ c := endsW_iff _ _
  have e2 : containsSub d c = true ↔ SubStrOf d c := containsSub_iff _ _
  by_cases h1 : ['\n', '\n'] <:+ c <;> by_cases h2 : SubStrOf d c <;>
    simp [e1.mpr, e2.mpr, h1, h2, ← Bool.not_eq_true, e1, e2]

theorem countOcc_strip_nl (n : List Char) (hne : n ≠ []) (hnl : '\n' ∉ n)
    (a : List Char) : countOcc n (a ++ ['\n']) = countOcc n a := by
  rw [countOcc_append_nl n hne hnl a [], countOcc_head_nl n hne hnl,
    countOcc_nil n hne]
  omega

theorem countOcc_writeTimestamp (d t c : List Char) (hne : d ≠ []) (hnl : '\n' ∉ d)
    (hlen : t.length + 2 < d.length) :
    countOcc d (writeTimestamp d t (some c)) =
      if containsSub d c then countOcc d c else 1 := by
  have hts : countOcc d (t ++ ['\n', '\n']) = 0 := by
    refine countOcc_short d _ ?_
    simp only [List.length_append, List.length_cons, List.length_nil]
    omega
  have htn : countOcc d ('\n' :: (t ++ ['\n', '\n'])) = 0 := by
    rw [countOcc_head_nl d hne hnl, hts]
  have hdd : countOcc d (d ++ '\n' :: (t ++ ['\n', '\n'])) = 1 := by
    rw [countOcc_append_nl d hne hnl, countOcc_self d hne, htn]
  have hddn : countOcc d ('\n' :: (d ++ '\n' :: (t ++ ['\n', '\n']))) = 1 := by
    rw [countOcc_head_nl d hne hnl, hdd]
  cases h1 : endsW ['\n', '\n'] c with
  | true =>
    obtain ⟨p, hp⟩ := (endsW_iff _ _).mp h1
    have hc2 : countOcc d c = countOcc d (p ++ ['\n']) := by
      rw [← hp, show p ++ ['\n', '\n'] = (p ++ ['\n']) ++ ['\n'] by simp,
        countOcc_strip_nl d hne hnl]
    cases h2 : containsSub d c with
    | true =>
      have hw : writeTimestamp d t (some c)
          = (p ++ ['\n']) ++ '\n' :: (t ++ ['\n', '\n']) := by
        rw [writeTimestamp_some, h1, h2, ← hp]
        simp
      rw [hw, countOcc_append_nl d hne hnl, htn]
      simp [hc2]
    | false =>
      have hw : writeTimestamp d t (some c)
          = (p ++ ['\n']) ++ '\n' :: (d ++ '\n' :: (t ++ ['\n', '\n'])) := by
        rw [writeTimestamp_some, h1, h2, ← hp]
        simp
      have hz := (countOcc_eq_zero_iff d c).mpr h2
      rw [hc2] at hz
      rw [hw, countOcc_append_nl d hne hnl, hddn]
      simp [hz]
  | false =>
    cases h2 : containsSub d c with
    | true =>
      have hw : writeTimestamp d t (some c)
          = c ++ '\n' :: (t ++ ['\n', '\n']) := by
        rw [writeTimestamp_some, h1, h2]
        simp
      rw [hw, countOcc_append_nl d hne hnl, htn]
      simp
    | false =>
      have hw : writeTimestamp d t (some c)
          = c ++ '\n' :: (d ++ '\n' :: (t ++ ['\n', '\n'])) := by
        rw [writeTimestamp_some, h1, h2]
        simp
      have hz := (countOcc_eq_zero_iff d c).mpr h2
      rw [hw, countOcc_append_nl d hne hnl, hddn]
      simp [hz]

theorem writeTimestamp_endsNN (d t c : List Char) :
    endsW ['\n', '\n'] (writeTimestamp d t (some c)) = true := by
  refine (endsW_iff _ _).mpr ?_
  rw [writeTimestamp_some]
  refine ⟨c ++ ((if endsW ['\n', '\n'] c then [] else ['\n']) ++
    ((if containsSub d c then [] else d ++ ['\n']) ++ t)), ?_⟩
  simp

/-- Claim C3: invariant preserved by every timestamp write: within an entry
file, the stamp string of one calendar date occurs at most once, no matter
how many timestamp writes are made on that date (each write after the first
on the same date omits the date line).  Here `d` is the date string of the
write and `t` the time string; the length bound and no-newline hypotheses
hold for every real `YYYY-MM-DD` date string and `HH:MM` time string. -/
theorem claim_C3_date_at_most_once (d t c : List Char) (hne : d ≠ [])
    (hnl : '\n' ∉ d) (hlen : t.length + 2 < d.length)
    (h : countOcc d c ≤ 1) :
    countOcc d (writeTimestamp d t (some c)) ≤ 1 := by
  rw [countOcc_writeTimestamp d t c hne hnl hlen]
  cases h2 : containsSub d c <;> simp [h]

theorem claim_C3_date_at_most_once_witness :
    countOcc "2024-01-01".data
      (writeTimestamp "2024-01-01".data "10:30".data (some "hello\n".data)) ≤ 1 :=
  claim_C3_date_at_most_once _ _ _ (by decide) (by decide) (by decide) (by decide)

/-- Claim C4 counterexample: the claim quantifies over every file state,
but for a state that already contains the date of the writes (here the
scenario state itself), two same-day timestamp writes append zero new
date lines, not exactly one in total. -/
theorem claim_C4_counterexample :
    countOcc "2024-01-01".data
        (writeTimestamp "2024-01-01".data "11:00".data
          (some (writeTimestamp "2024-01-01".data "10:30".data
            (some "2024-01-01\n09:00\n\n".data)))) =
      countOcc "2024-01-01".data "2024-01-01\n09:00\n\n".data ∧
    ¬ countOcc "2024-01-01".data
        (writeTimestamp "2024-01-01".data "11:00".data
          (some (writeTimestamp "2024-01-01".data "10:30".data
            (some "2024-01-01\n09:00\n\n".data)))) =
      countOcc "2024-01-01".data "2024-01-01\n09:00\n\n".data + 1 := by
  constructor
  · decide
  · decide

/-- Claim C4 (amended): for every file state in which the date of the
writes does not yet occur, two timestamp writes within the same calendar
date append exactly one new date line in total across both calls (for
states already containing the date, zero are appended); the second write
appends exactly its time line followed by one blank line and no date line;
and the concrete scenario of the claim holds as stated. -/
theorem claim_C4_two_writes (c d t1 t2 : List Char) (hne : d ≠ [])
    (hnl : '\n' ∉ d) (hlen1 : t1.length + 2 < d.length)
    (hlen2 : t2.length + 2 < d.length) (h0 : countOcc d c = 0) :
    writeTimestamp d t2 (some (writeTimestamp d t1 (some c)))
        = writeTimestamp d t1 (some c) ++ (t2 ++ ['\n', '\n'])
      ∧ countOcc d (writeTimestamp d t2 (some (writeTimestamp d t1 (some c)))) = 1
      ∧ writeTimestamp "2024-01-01".data "10:30".data
            (some "2024-01-01\n09:00\n\n".data)
          = "2024-01-01\n09:00\n\n10:30\n\n".data := by
  have hcs0 : containsSub d c = false := (countOcc_eq_zero_iff d c).mp h0
  have hc1 : countOcc d (writeTimestamp d t1 (some c)) = 1 := by
    rw [countOcc_writeTimestamp d t1 c hne hnl hlen1, hcs0]
    simp
  have hcs1 : containsSub d (writeTimestamp d t1 (some c)) = true := by
    cases hx : containsSub d (writeTimestamp d t1 (some c)) with
    | true => rfl
    | false =>
      have := (countOcc_eq_zero_iff d _).mpr hx
      rw [hc1] at this
      exact absurd this (by simp)
  have hends : endsW ['\n', '\n'] (writeTimestamp d t1 (some c)) = true :=
    writeTimestamp_endsNN d t1 c
  have hfst : writeTimestamp d t2 (some (writeTimestamp d t1 (some c)))
      = writeTimestamp d t1 (some c) ++ (t2 ++ ['\n', '\n']) := by
    rw [writeTimestamp_some, hends, hcs1]
    simp
  refine ⟨hfst, ?_, by decide⟩
  have hsnd : countOcc d (writeTimestamp d t2 (some (writeTimestamp d t1 (some c)))) =
      if containsSub d (writeTimestamp d t1 (some c))
        then countOcc d (writeTimestamp d t1 (some c)) else 1 :=
    countOcc_writeTimestamp d t2 _ hne hnl hlen2
  rw [hsnd, hcs1]
  simpa using hc1

theorem claim_C4_two_writes_witness :
    countOcc "2024-01-01".data
      (writeTimestamp "2024-01-01".data "11:00".data
        (some (writeTimestamp "2024-01-01".data "10:30".data
          (some "hello".data)))) = 1 :=
  (claim_C4_two_writes "hello".data "2024-01-01".data "10:30".data "11:00".data
    (by decide) (by decide) (by decide) (by decide) (by decide)).2.1

/-- Naive datetime: `days` is the proleptic Gregorian ordinal of the date
(as Python `date.toordinal`, 1 = 0001-01-01), `hour` and `minute` the
local time of day. -/
structure DT where
  days : Int
  hour : Nat
  minute : Nat
  deriving DecidableEq

/-- Day arithmetic `dt + datetime.timedelta(days := k)` on a naive
datetime leaves the time of day unchanged.  This unbounded form ignores
the ordinal range of CPython datetimes; `addDaysChecked` below is the
bounded form with the uncaught OverflowError, used where that range
matters (large-magnitude offsets). -/
def addDays (dt : DT) (k : Int) : DT := { dt with days := dt.days + k }

/-- Convert a proleptic Gregorian ordinal to (year, month, day), as the
`strftime` rendering needs (standard civil-from-days algorithm). -/
def civilFromOrdinal (ord : Int) : Int × Nat × Nat :=
  let z := ord - 719163 + 719468
  let era := Int.fdiv z 146097
  let doe := (z - era * 146097).toNat
  let yoe := (doe - doe / 1460 + doe / 36524 - doe / 146096) / 365
  let y := Int.ofNat yoe + era * 400
  let doy := doe - (365 * yoe + yoe / 4 - yoe / 100)
  let mp := (5 * doy + 2) / 153
  let d := doy - (153 * mp + 2) / 5 + 1
  let m := if mp < 10 then mp + 3 else mp - 9
  (y + (if m ≤ 2 then 1 else 0), m, d)

/-- Zero-padded decimal rendering of a number, as `strftime` formats do. -/
def padNum (width n : Nat) : List Char :=
  let s := Nat.toDigits 10 n
  List.replicate (width - s.length) '0' ++ s

/-- The string `dt.strftime("%Y-%m-%d")`. -/
def dtDateStr (dt : DT) : List Char :=
  let c := civilFromOrdinal dt.days
  padNum 4 c.1.toNat ++ '-' :: (padNum 2 c.2.1 ++ '-' :: padNum 2 c.2.2)

/-- The string `dt.strftime("%H:%M")`. -/
def dtTimeStr (dt : DT) : List Char :=
  padNum 2 dt.hour ++ ':' :: padNum 2 dt.minute

/-- The string `str(dt.year)` used for the year directory name. -/
def dtYearStr (dt : DT) : List Char :=
  Nat.toDigits 10 (civilFromOrdinal dt.days).1.toNat

/-- A date-specifier string, represented by the outcomes of the two
external parsers the code applies to it: `intParse` is the result of the
Python `int(datestring)` conversion (`none` when that raises ValueError)
and `fuzzyParse` the result of `dateutil.parser.parse(datestring,
fuzzy := True)` (`none` when that raises a parse error). -/
structure Specifier where
  intParse : Option Int
  fuzzyParse : Option DT
  deriving DecidableEq

/-- Uncaught parse failure of a date specifier. -/
inductive JErr where
  | parseError
  deriving DecidableEq

/-- The `except ValueError` branch of main (jrnl.py line 60-61): fall
through to fuzzy parsing of the specifier. -/
def fuzzyResolve (s : Specifier) : Except JErr DT :=
  match s.fuzzyParse with
  | some dt => .ok dt
  | none => .error .parseError

/-- Resolution of one date specifier (jrnl.py lines 47-61): try the
specifier as an integer day offset, raising ValueError when the offset
exceeds 1e6 (only this upper bound is tested), in which case the
specifier is parsed as a fuzzy date string instead. -/
def resolveOne (now : DT) (s : Specifier) : Except JErr DT :=
  match s.intParse with
  | some o => if o > 1000000 then fuzzyResolve s else .ok (addDays now o)
  | none => fuzzyResolve s

/-- The specifier loop of main (jrnl.py lines 45-61): resolve every
specifier in order; the first failure propagates and aborts. -/
def resolveAll (now : DT) : List Specifier → Except JErr (List DT)
  | [] => .ok []
  | s :: rest =>
    match resolveOne now s with
    | .error e => .error e
    | .ok d =>
      match resolveAll now rest with
      | .error e => .error e
      | .ok ds => .ok (d :: ds)

/-- Date resolution of main (jrnl.py lines 43-70): explicit specifiers
when given, otherwise the implicit current day, moved one day back when
the current hour is below the configured threshold. -/
def resolveDates (now : DT) (threshold : Nat) : List Specifier → Except JErr (List DT)
  | [] => .ok [if now.hour < threshold then addDays now (-1) else now]
  | s :: rest => resolveAll now (s :: rest)

/-- Flat filesystem model: the existing files with their contents, and
the existing directories. -/
structure FS where
  files : List (String × List Char)
  dirs : List String
  deriving DecidableEq

def FS.fileExists (fs : FS) (p : String) : Bool := fs.files.any (fun e => e.1 == p)

def FS.readFile (fs : FS) (p : String) : Option (List Char) :=
  (fs.files.find? (fun e => e.1 == p)).map (fun e => e.2)

def FS.writeFile (fs : FS) (p : String) (c : List Char) : FS :=
  ⟨(p, c) :: fs.files, fs.dirs⟩

def FS.dirExists (fs : FS) (p : String) : Bool := fs.dirs.contains p

def FS.mkdir (fs : FS) (p : String) : FS := ⟨fs.files, p :: fs.dirs⟩

/-- The function `jrnl.writeTimestamp` as a filesystem transformation on the entry
path: the new content is `writeTimestamp` applied to the old state. -/
def writeTimestampFS (p : String) (todayDate todayTime : List Char) (fs : FS) : FS :=
  fs.writeFile p (writeTimestamp todayDate todayTime (fs.readFile p))

/-- Observable side effects of a run, in order: a message printed to the
error stream, a directory created, a timestamp written, an editor process
launched and waited on. -/
inductive Effect where
  | errMsg (msg : String)
  | mkdirE (path : String)
  | stamp (path : String)
  | editor (name : String) (path : String)
  deriving DecidableEq

/-- The year directory `os.path.join(journalPath, str(date.year))`. -/
def yearDirOf (journalPath : String) (dt : DT) : String :=
  journalPath ++ "/" ++ String.mk (dtYearStr dt)

/-- The entry path `<journal>/<year>/<YYYY-MM-DD>.txt` (jrnl.py 160-161). -/
def entryPathOf (journalPath : String) (dt : DT) : String :=
  yearDirOf journalPath dt ++ "/" ++ String.mk (dtDateStr dt) ++ ".txt"

/-- Translation of `jrnl.openEntry` (jrnl.py lines 140-177).  `loadDT` is
the datetime captured once at module load as the default value of the
`todayDatetime` parameter of `writeTimestamp`; `openEntry` calls
`writeTimestamp(entryPath)` without a second argument, so the stamp
strings are rendered from `loadDT`. -/
def openEntry (dt : DT) (editorName journalPath : String)
    (dotimestamp inreadmode : Bool) (loadDT : DT) (fs : FS) : FS × List Effect :=
  let yearDirPath := yearDirOf journalPath dt
  let entryPath := entryPathOf journalPath dt
  if inreadmode && !fs.fileExists entryPath then
    (fs, [.errMsg (entryPath ++ " does not exist!")])
  else
    let fs1 := if fs.dirExists yearDirPath then fs else fs.mkdir yearDirPath
    let e1 : List Effect :=
      if fs.dirExists yearDirPath then [] else [.mkdirE yearDirPath]
    let fs2 :=
      if dotimestamp then writeTimestampFS entryPath (dtDateStr loadDT) (dtTimeStr loadDT) fs1
      else fs1
    let e2 : List Effect := if dotimestamp then [.stamp entryPath] else []
    (fs2, e1 ++ (e2 ++ [.editor editorName entryPath]))

/-- The loop over resolved dates (jrnl.py lines 80-82), threading the
filesystem state and collecting effects in order. -/
def processDates (editorName journalPath : String) (dotimestamp inreadmode : Bool)
    (loadDT : DT) : FS → List DT → FS × List Effect
  | fs, [] => (fs, [])
  | fs, d :: rest =>
    let r1 := openEntry d editorName journalPath dotimestamp inreadmode loadDT fs
    let r2 := processDates editorName journalPath dotimestamp inreadmode loadDT r1.1 rest
    (r2.1, r1.2 ++ r2.2)

/-- The configuration mapping (spec section 3). -/
structure Config where
  editor : String
  journal_path : String
  hours_past_midnight_included_in_day : Nat
  write_timestamp : Bool
  deriving DecidableEq

/-- Parsed runtime arguments of the CLI. -/
structure RuntimeArgs where
  dates : List Specifier
  timestamp : Bool
  no_timestamp : Bool
  deriving DecidableEq

/-- Read mode: `readmode = bool(runtimeArgs.dates)` (jrnl.py line 77). -/
def readMode (args : RuntimeArgs) : Bool := !args.dates.isEmpty

/-- Outcome of a run: `Except.ok n` is an explicit `sys.exit(n)`,
`Except.error e` a propagated uncaught exception. -/
structure MainResult where
  outcome : Except JErr Nat
  fs : FS
  effects : List Effect

/-- Translation of `jrnl.main` (jrnl.py lines 14-85).

Modelled from the spec: the helper modules `jrnl.runoptions` and
`jrnl.helpers` are not part of the given source.  Following the spec,
the `getConfig` result is the input `cfg?` (`none` when no configuration
is found), `helpers.isProgramAvailable p` is membership of `p` in the
input list `avail`, and the `helpers.prompt` answer about creating the
journal root is the input `promptYes`.  `now` is the current datetime at
date-resolution time, `loadDT` the datetime captured at module load. -/
def mainModel (cfg? : Option Config) (avail : List String) (promptYes : Bool)
    (now loadDT : DT) (args : RuntimeArgs) (fs : FS) : MainResult :=
  match cfg? with
  | none => ⟨.ok 1, fs, [.errMsg "No config file found!"]⟩
  | some cfg =>
    let editorChoice : Option String :=
      if avail.contains cfg.editor then some cfg.editor
      else if avail.contains "sensible-editor" then some "sensible-editor"
      else none
    match editorChoice with
    | none => ⟨.ok 1, fs, [.errMsg (cfg.editor ++ " not available!")]⟩
    | some editorName =>
      if !fs.dirExists cfg.journal_path && !promptYes then ⟨.ok 0, fs, []⟩
      else
        let fs1 := if fs.dirExists cfg.journal_path then fs else fs.mkdir cfg.journal_path
        let e1 : List Effect :=
          if fs.dirExists cfg.journal_path then [] else [.mkdirE cfg.journal_path]
        match resolveDates now cfg.hours_past_midnight_included_in_day args.dates with
        | .error e => ⟨.error e, fs1, e1⟩
        | .ok ds =>
          let wts := args.timestamp || (cfg.write_timestamp && !args.no_timestamp)
          let r := processDates editorName cfg.journal_path wts (readMode args) loadDT fs1 ds
          ⟨.ok 0, r.1, e1 ++ r.2⟩

/-- Bounded day arithmetic of CPython datetimes: the proleptic ordinal
of a datetime must lie in 1..3652059 (years 1..9999), and
`dt + datetime.timedelta(days := k)` raises an uncaught OverflowError
(modelled as `none`) when the result falls outside that range. -/
def addDaysChecked (dt : DT) (k : Int) : Option DT :=
  if 1 ≤ dt.days + k ∧ dt.days + k ≤ 3652059 then some (addDays dt k) else none

/-- Errors a date-specifier resolution can abort with: the dateutil parse
error, or the OverflowError of out-of-range datetime arithmetic; neither
is caught by the `except ValueError` handler of main. -/
inductive PyErr where
  | parseError
  | overflowError
  deriving DecidableEq

/-- Fuzzy parsing of the specifier, with its parse failure. -/
def fuzzyChecked (s : Specifier) : Except PyErr DT :=
  match s.fuzzyParse with
  | some dt => .ok dt
  | none => .error .parseError

/-- Resolution of one date specifier (jrnl.py lines 47-61) with the
bounded datetime arithmetic of CPython: the integer offset branch raises
ValueError only when the offset exceeds 1e6 (falling through to fuzzy
parsing); otherwise `datetime.today() + timedelta(days := offset)` is
evaluated and aborts with an uncaught OverflowError when the resulting
date is not representable.  `resolveOne` above is the unbounded
idealization of this function, used by the claims for which the ordinal
range is not load-bearing. -/
def resolveOneChecked (now : DT) (s : Specifier) : Except PyErr DT :=
  match s.intParse with
  | some o =>
    if o > 1000000 then fuzzyChecked s
    else
      match addDaysChecked now o with
      | some dt => .ok dt
      | none => .error .overflowError
  | none => fuzzyChecked s

theorem resolveOne_of_checked (now : DT) (s : Specifier) (d : DT)
    (h : resolveOneChecked now s = .ok d) : resolveOne now s = .ok d := by
  cases hi : s.intParse with
  | none =>
    simp only [resolveOneChecked, hi] at h
    simp only [resolveOne, hi]
    cases hf : s.fuzzyParse with
    | none =>
      simp only [fuzzyChecked, hf] at h
      exact Except.noConfusion h
    | some dt =>
      simp only [fuzzyChecked, hf] at h
      simp only [fuzzyResolve, hf]
      exact congrArg Except.ok (Except.ok.inj h)
  | some o =>
    simp only [resolveOneChecked, hi] at h
    simp only [resolveOne, hi]
    by_cases ho : (1000000 : Int) < o
    · rw [if_pos ho] at h
      rw [if_pos ho]
      cases hf : s.fuzzyParse with
      | none =>
        simp only [fuzzyChecked, hf] at h
        exact Except.noConfusion h
      | some dt =>
        simp only [fuzzyChecked, hf] at h
        simp only [fuzzyResolve, hf]
        exact congrArg Except.ok (Except.ok.inj h)
    · rw [if_neg ho] at h
      rw [if_neg ho]
      cases hc : addDaysChecked now o with
      | none =>
        simp only [hc] at h
        exact Except.noConfusion h
      | some dt =>
        simp only [hc] at h
        have hd := Except.ok.inj h
        simp only [addDaysChecked] at hc
        by_cases hr : 1 ≤ now.days + o ∧ now.days + o ≤ 3652059
        · rw [if_pos hr] at hc
          rw [Option.some.inj hc, hd]
        · rw [if_neg hr] at hc
          exact Option.noConfusion hc

/-- Claim C2 counterexample: for the integer specifier -1000001, whose
absolute value exceeds 1,000,000 and whose fuzzy parse would succeed, the
code still attempts it as a day offset (only `offset > 1e6` is tested,
jrnl.py line 54) and the run aborts with an uncaught OverflowError, since
2024-01-01 minus 1000001 days falls before the representable datetime
range; it does not fall through to fuzzy parsing as the claim states,
which would have yielded the fuzzy result. -/
theorem claim_C2_counterexample :
    resolveOneChecked ⟨738886, 12, 0⟩ ⟨some (-1000001), some ⟨700000, 3, 4⟩⟩
        = .error .overflowError
      ∧ fuzzyChecked ⟨some (-1000001), some ⟨700000, 3, 4⟩⟩
          = .ok (⟨700000, 3, 4⟩ : DT)
      ∧ (Except.error PyErr.overflowError : Except PyErr DT)
          ≠ .ok (⟨700000, 3, 4⟩ : DT) :=
  ⟨rfl, rfl, fun h => Except.noConfusion h⟩

/-- Claim C2 (amended): an integer specifier o is attempted as a day
offset if and only if o ≤ 1,000,000 — only the upper bound is enforced,
so arbitrarily negative integers are still attempted as offsets.  When
attempted and the resulting ordinal lies within the representable
datetime range (1..3652059, years 1..9999), the resolution yields the
current datetime at resolution time plus o days (not normalized to
midnight); when the result falls outside that range the run aborts with
an uncaught OverflowError.  An integer specifier with o > 1,000,000 is
not treated as an offset and instead falls through to fuzzy date-string
parsing. -/
theorem claim_C2_offset_resolution (now : DT) (s : Specifier) (o : Int)
    (h : s.intParse = some o) :
    (o ≤ 1000000 → 1 ≤ now.days + o → now.days + o ≤ 3652059 →
        resolveOneChecked now s = .ok (addDays now o))
      ∧ (o ≤ 1000000 → ¬ (1 ≤ now.days + o ∧ now.days + o ≤ 3652059) →
          resolveOneChecked now s = .error .overflowError)
      ∧ (1000000 < o → resolveOneChecked now s = fuzzyChecked s) := by
  refine ⟨fun ho h1 h2 => ?_, fun ho hr => ?_, fun ho => ?_⟩
  · simp only [resolveOneChecked, addDaysChecked, h]
    rw [if_neg (by omega : ¬ (1000000 : Int) < o), if_pos ⟨h1, h2⟩]
  · simp only [resolveOneChecked, addDaysChecked, h]
    rw [if_neg (by omega : ¬ (1000000 : Int) < o), if_neg hr]
  · simp only [resolveOneChecked, h]
    rw [if_pos ho]

theorem claim_C2_offset_resolution_witness :
    resolveOneChecked ⟨738886, 12, 0⟩ ⟨some 5, none⟩
      = .ok (addDays ⟨738886, 12, 0⟩ 5) :=
  (claim_C2_offset_resolution ⟨738886, 12, 0⟩ ⟨some 5, none⟩ 5 rfl).1
    (by decide) (by decide) (by decide)

theorem FS.readFile_none (fs : FS) (p : String) (h : fs.fileExists p = false) :
    fs.readFile p = none := by
  have h2 : ∀ e ∈ fs.files, ¬ (e.1 == p) = true := by
    intro e he
    intro hb
    have : fs.files.any (fun x => x.1 == p) = true :=
      List.any_eq_true.mpr ⟨e, he, hb⟩
    rw [FS.fileExists] at h
    rw [h] at this
    exact Bool.false_ne_true this
  simp [FS.readFile, List.find?_eq_none.mpr h2]

theorem FS.readFile_writeFile (fs : FS) (p : String) (c : List Char) :
    (fs.writeFile p c).readFile p = some c := by
  simp [FS.readFile, FS.writeFile, List.find?_cons]

theorem not_nlnl_suffix (X : List Char) (e : Char) (he : e ≠ '\n')
    (Y : List Char) (hX : X = Y ++ [e, '\n']) : ¬ ['\n', '\n'] <:+ X := by
  rintro ⟨q, hq⟩
  rw [hX] at hq
  have h2 := (List.append_inj' hq (by simp)).2
  rw [List.cons.injEq] at h2
  exact he h2.1.symm

/-- Claim C5: for every entry path whose file does not yet exist, a
timestamp write creates the file with contents exactly two
newline-terminated lines — the date line then the time line — and nothing
more: no trailing blank line.  The hypotheses on the time string hold for
every real `HH:MM` rendering. -/
theorem claim_C5_new_file (p : String) (d t : List Char) (fs : FS)
    (hex : fs.fileExists p = false) (ht : t ≠ []) (hnl : '\n' ∉ t) :
    (writeTimestampFS p d t fs).readFile p = some (d ++ '\n' :: (t ++ ['\n']))
      ∧ ¬ ['\n', '\n'] <:+ (d ++ '\n' :: (t ++ ['\n'])) := by
  constructor
  · rw [writeTimestampFS, FS.readFile_none fs p hex]
    exact FS.readFile_writeFile fs p _
  · rcases List.eq_nil_or_concat t with rfl | ⟨ts, e, rfl⟩
    · exact absurd rfl ht
    · have he : e ≠ '\n' := by
        intro hh
        exact hnl (hh ▸ (by simp : e ∈ ts.concat e))
      refine not_nlnl_suffix _ e he (d ++ '\n' :: ts) ?_
      simp [List.concat_eq_append]

theorem claim_C5_new_file_witness :
    (writeTimestampFS "e.txt" "2024-01-01".data "09:00".data ⟨[], []⟩).readFile "e.txt"
      = some ("2024-01-01".data ++ '\n' :: ("09:00".data ++ ['\n'])) :=
  (claim_C5_new_file "e.txt" "2024-01-01".data "09:00".data ⟨[], []⟩
    (by decide) (by decide) (by decide)).1

/-- Claim C6: with zero date specifiers the resolver produces exactly one
date: the current date when the current local hour is at least the
configured `hours_past_midnight_included_in_day` threshold, and the
current date minus one day when the hour is strictly below it. -/
theorem claim_C6_implicit_today (now : DT) (threshold : Nat) :
    (∃ d, resolveDates now threshold [] = .ok [d])
      ∧ (threshold ≤ now.hour → resolveDates now threshold [] = .ok [now])
      ∧ (now.hour < threshold → resolveDates now threshold [] = .ok [addDays now (-1)]) := by
  have hbase : resolveDates now threshold []
      = .ok [if now.hour < threshold then addDays now (-1) else now] := rfl
  refine ⟨⟨_, hbase⟩, fun h => ?_, fun h => ?_⟩
  · rw [hbase, if_neg (by omega : ¬ now.hour < threshold)]
  · rw [hbase, if_pos h]

theorem claim_C6_implicit_today_witness :
    resolveDates ⟨738886, 2, 0⟩ 4 [] = .ok [addDays ⟨738886, 2, 0⟩ (-1)] :=
  (claim_C6_implicit_today ⟨738886, 2, 0⟩ 4).2.2 (by decide)

/-- Claim C7: read mode holds exactly when at least one explicit date
specifier was supplied; and in read mode, opening an entry whose file
does not exist prints `<path> does not exist!` to the error stream and
returns with the filesystem unchanged — no file or directory created, no
timestamp written, no editor launched — while the remaining dates are
still processed. -/
theorem claim_C7_read_mode (dt : DT) (en jp : String) (wts : Bool) (loadDT : DT)
    (fs : FS) (rest : List DT)
    (hex : fs.fileExists (entryPathOf jp dt) = false) :
    (∀ args : RuntimeArgs, readMode args = true ↔ args.dates ≠ [])
      ∧ openEntry dt en jp wts true loadDT fs
          = (fs, [.errMsg (entryPathOf jp dt ++ " does not exist!")])
      ∧ processDates en jp wts true loadDT fs (dt :: rest)
          = ((processDates en jp wts true loadDT fs rest).1,
             .errMsg (entryPathOf jp dt ++ " does not exist!")
               :: (processDates en jp wts true loadDT fs rest).2) := by
  have hopen : openEntry dt en jp wts true loadDT fs
      = (fs, [.errMsg (entryPathOf jp dt ++ " does not exist!")]) := by
    simp [openEntry, hex]
  refine ⟨?_, hopen, ?_⟩
  · intro args
    cases hd : args.dates <;> simp [readMode, hd]
  · simp [processDates, hopen]

theorem claim_C7_read_mode_witness :
    openEntry ⟨738886, 9, 0⟩ "vi" "j" true true ⟨738886, 9, 0⟩ ⟨[], []⟩
      = (⟨[], []⟩, [.errMsg (entryPathOf "j" ⟨738886, 9, 0⟩ ++ " does not exist!")]) :=
  (claim_C7_read_mode ⟨738886, 9, 0⟩ "vi" "j" true ⟨738886, 9, 0⟩ ⟨[], []⟩ []
    (by decide)).2.1

theorem FS.readFile_mkdir (fs : FS) (q p : String) :
    (fs.mkdir q).readFile p = fs.readFile p := rfl

/-- Claim C8: every timestamp-writer call that omits the `todayDatetime`
argument — which includes the call `openEntry` makes for every resolved
date — stamps the date and time captured once at module load (`loadDT`
here), not the time of the call and not the resolved entry date: for a
resolved date whose date string differs from the module-load date string,
the freshly created entry file contains the module-load date line and
time line, and the resolved date string does not occur in the file at
all.  The length and newline hypotheses hold for every real `YYYY-MM-DD`
and `HH:MM` rendering. -/
theorem claim_C8_stale_default (resolved loadDT : DT) (en jp : String) (fs : FS)
    (hex : fs.fileExists (entryPathOf jp resolved) = false)
    (hne : dtDateStr resolved ≠ dtDateStr loadDT)
    (hlen : (dtDateStr resolved).length = (dtDateStr loadDT).length)
    (hnl : '\n' ∉ dtDateStr resolved)
    (hnn : dtDateStr resolved ≠ [])
    (htl : (dtTimeStr loadDT).length + 1 < (dtDateStr resolved).length) :
    (openEntry resolved en jp true false loadDT fs).1.readFile (entryPathOf jp resolved)
        = some (dtDateStr loadDT ++ '\n' :: (dtTimeStr loadDT ++ ['\n']))
      ∧ ¬ SubStrOf (dtDateStr resolved)
          (dtDateStr loadDT ++ '\n' :: (dtTimeStr loadDT ++ ['\n'])) := by
  constructor
  · by_cases hD : fs.dirExists (yearDirOf jp resolved) = true <;>
      simp [openEntry, writeTimestampFS, hD, FS.readFile_mkdir,
        FS.readFile_none fs _ hex, FS.readFile_writeFile, writeTimestamp]
  · intro hsub
    have hz : countOcc (dtDateStr resolved)
        (dtDateStr loadDT ++ '\n' :: (dtTimeStr loadDT ++ ['\n'])) = 0 := by
      rw [countOcc_append_nl _ hnn hnl, countOcc_of_length_eq _ _ hlen hne,
        countOcc_head_nl _ hnn hnl, countOcc_short _ _ (by
          simp only [List.length_append, List.length_cons, List.length_nil]
          omega)]
    have hcs := (containsSub_iff _ _).mpr hsub
    have h0 := (countOcc_eq_zero_iff _ _).mp hz
    rw [h0] at hcs
    exact Bool.false_ne_true hcs

theorem claim_C8_stale_default_witness :
    (openEntry ⟨738887, 9, 30⟩ "vi" "j" true false ⟨738886, 9, 30⟩
        ⟨[], []⟩).1.readFile (entryPathOf "j" ⟨738887, 9, 30⟩)
      = some (dtDateStr ⟨738886, 9, 30⟩ ++ '\n' :: (dtTimeStr ⟨738886, 9, 30⟩ ++ ['\n'])) :=
  (claim_C8_stale_default ⟨738887, 9, 30⟩ ⟨738886, 9, 30⟩ "vi" "j" ⟨[], []⟩
    (by decide) (by decide) (by decide) (by decide) (by decide) (by decide)).1

theorem resolveAll_error_of_mem (now : DT) :
    ∀ (specs : List Specifier) (s : Specifier), s ∈ specs →
      resolveOne now s = .error .parseError →
      ∃ e, resolveAll now specs = .error e
  | [], s, hs, _ => absurd hs (List.not_mem_nil s)
  | s0 :: rest, s, hs, herr => by
    cases hr : resolveOne now s0 with
    | error e => exact ⟨e, by simp [resolveAll, hr]⟩
    | ok d =>
      rcases List.mem_cons.mp hs with rfl | hmem
      · exact Except.noConfusion (herr.symm.trans hr)
      · obtain ⟨e, he⟩ := resolveAll_error_of_mem now rest s hmem herr
        exact ⟨e, by simp [resolveAll, hr, he]⟩

/-- Claim C9: when the specifier list contains a string that is neither an
integer offset within the accepted range nor a parseable fuzzy date, the
run aborts with a propagated parse error and no entry is processed for
any date of the invocation: no timestamp is written, no editor is
launched, no file is created, and no directory is created other than
possibly the journal root itself (which main handles before date
resolution), because all specifiers are resolved before any entry is
opened. -/
theorem claim_C9_parse_abort (cfg : Config) (avail : List String) (promptYes : Bool)
    (now loadDT : DT) (args : RuntimeArgs) (fs : FS) (s : Specifier)
    (hed : avail.contains cfg.editor = true ∨ avail.contains "sensible-editor" = true)
    (hroot : fs.dirExists cfg.journal_path = true ∨ promptYes = true)
    (hs : s ∈ args.dates)
    (hint : ∀ o, s.intParse = some o → 1000000 < o)
    (hfuz : s.fuzzyParse = none) :
    (mainModel (some cfg) avail promptYes now loadDT args fs).outcome
        = .error .parseError
      ∧ (∀ p, Effect.stamp p
          ∉ (mainModel (some cfg) avail promptYes now loadDT args fs).effects)
      ∧ (∀ n p, Effect.editor n p
          ∉ (mainModel (some cfg) avail promptYes now loadDT args fs).effects)
      ∧ (∀ p, Effect.mkdirE p
            ∈ (mainModel (some cfg) avail promptYes now loadDT args fs).effects →
          p = cfg.journal_path)
      ∧ (mainModel (some cfg) avail promptYes now loadDT args fs).fs.files
          = fs.files := by
  have herr1 : resolveOne now s = .error .parseError := by
    cases hi : s.intParse with
    | none => simp [resolveOne, hi, fuzzyResolve, hfuz]
    | some o =>
      have ho := hint o hi
      simp [resolveOne, hi, if_pos ho, fuzzyResolve, hfuz]
  have hres : resolveDates now cfg.hours_past_midnight_included_in_day args.dates
      = .error .parseError := by
    cases hd : args.dates with
    | nil => rw [hd] at hs; exact absurd hs (List.not_mem_nil s)
    | cons a rest =>
      rw [hd] at hs
      obtain ⟨e, he⟩ := resolveAll_error_of_mem now (a :: rest) s hs herr1
      cases e
      exact he
  have hchoice : ∃ en2, (if avail.contains cfg.editor then some cfg.editor
      else if avail.contains "sensible-editor" then some "sensible-editor"
      else none) = some en2 := by
    by_cases h2 : avail.contains cfg.editor = true
    · exact ⟨cfg.editor, by rw [if_pos h2]⟩
    · rcases hed with h | h
      · exact absurd h h2
      · exact ⟨"sensible-editor", by rw [if_neg h2, if_pos h]⟩
  obtain ⟨en2, hch⟩ := hchoice
  have hcond : (!fs.dirExists cfg.journal_path && !promptYes) = false := by
    rcases hroot with h | h <;> simp [h]
  have hmain : mainModel (some cfg) avail promptYes now loadDT args fs
      = ⟨.error .parseError,
         if fs.dirExists cfg.journal_path then fs else fs.mkdir cfg.journal_path,
         if fs.dirExists cfg.journal_path then [] else [.mkdirE cfg.journal_path]⟩ := by
    simp only [mainModel, hch, hcond, hres]
    simp
  rw [hmain]
  by_cases hD : fs.dirExists cfg.journal_path = true <;>
    simp [hD, FS.mkdir]

theorem claim_C9_parse_abort_witness :
    (mainModel (some ⟨"vi", "j", 4, true⟩) ["vi"] true ⟨738886, 9, 0⟩ ⟨738886, 9, 0⟩
        ⟨[⟨none, none⟩], false, false⟩ ⟨[], []⟩).outcome = .error .parseError :=
  (claim_C9_parse_abort ⟨"vi", "j", 4, true⟩ ["vi"] true ⟨738886, 9, 0⟩ ⟨738886, 9, 0⟩
    ⟨[⟨none, none⟩], false, false⟩ ⟨[], []⟩ ⟨none, none⟩
    (Or.inl (by decide)) (Or.inr rfl) (by decide)
    (fun o h => nomatch h) rfl).1

theorem mainModel_eval_editor (cfg : Config) (avail : List String)
    (promptYes : Bool) (now loadDT : DT) (args : RuntimeArgs) (fs : FS) (en : String)
    (hch : (if avail.contains cfg.editor then some cfg.editor
      else if avail.contains "sensible-editor" then some "sensible-editor"
      else none) = some en) :
    mainModel (some cfg) avail promptYes now loadDT args fs =
      if !fs.dirExists cfg.journal_path && !promptYes then ⟨.ok 0, fs, []⟩
      else
        match resolveDates now cfg.hours_past_midnight_included_in_day args.dates with
        | .error e => ⟨.error e,
            if fs.dirExists cfg.journal_path then fs else fs.mkdir cfg.journal_path,
            if fs.dirExists cfg.journal_path then [] else [.mkdirE cfg.journal_path]⟩
        | .ok ds =>
          ⟨.ok 0,
           (processDates en cfg.journal_path
              (args.timestamp || (cfg.write_timestamp && !args.no_timestamp))
              (readMode args) loadDT
              (if fs.dirExists cfg.journal_path then fs else fs.mkdir cfg.journal_path)
              ds).1,
           (if fs.dirExists cfg.journal_path then [] else [.mkdirE cfg.journal_path])
             ++ (processDates en cfg.journal_path
              (args.timestamp || (cfg.write_timestamp && !args.no_timestamp))
              (readMode args) loadDT
              (if fs.dirExists cfg.journal_path then fs else fs.mkdir cfg.journal_path)
              ds).2⟩ := by
  simp only [mainModel, hch]

/-- Claim C10: the program exits with status 1 exactly when no
configuration is found or when neither the configured editor nor the
sensible-editor fallback is available, both decided before any date is
processed (no timestamp written, no editor launched in those cases); it
exits with status 0 when the user declines to create a missing journal
root, with no error message and no further processing; and it exits with
status 0 on normal completion (all dates resolved). -/
theorem claim_C10_exit_codes (cfg? : Option Config) (avail : List String)
    (promptYes : Bool) (now loadDT : DT) (args : RuntimeArgs) (fs : FS) :
    ((mainModel cfg? avail promptYes now loadDT args fs).outcome = .ok 1
        ↔ (cfg? = none ∨ ∃ cfg, cfg? = some cfg
            ∧ avail.contains cfg.editor = false
            ∧ avail.contains "sensible-editor" = false))
      ∧ ((mainModel cfg? avail promptYes now loadDT args fs).outcome = .ok 1 →
          (∀ p, Effect.stamp p
              ∉ (mainModel cfg? avail promptYes now loadDT args fs).effects)
            ∧ ∀ n p, Effect.editor n p
              ∉ (mainModel cfg? avail promptYes now loadDT args fs).effects)
      ∧ (∀ cfg, cfg? = some cfg →
          (avail.contains cfg.editor = true ∨ avail.contains "sensible-editor" = true) →
          fs.dirExists cfg.journal_path = false → promptYes = false →
          mainModel cfg? avail promptYes now loadDT args fs = ⟨.ok 0, fs, []⟩)
      ∧ (∀ cfg ds, cfg? = some cfg →
          (avail.contains cfg.editor = true ∨ avail.contains "sensible-editor" = true) →
          (fs.dirExists cfg.journal_path = true ∨ promptYes = true) →
          resolveDates now cfg.hours_past_midnight_included_in_day args.dates = .ok ds →
          (mainModel cfg? avail promptYes now loadDT args fs).outcome = .ok 0) := by
  cases cfg? with
  | none =>
    refine ⟨?_, ?_, ?_, ?_⟩
    · simp [mainModel]
    · intro _
      exact ⟨fun p => by simp [mainModel], fun n p => by simp [mainModel]⟩
    · intro cfg h
      exact Option.noConfusion h
    · intro cfg ds h
      exact Option.noConfusion h
  | some cfg =>
    by_cases hc1 : avail.contains cfg.editor = true
    · have hch : (if avail.contains cfg.editor then some cfg.editor
          else if avail.contains "sensible-editor" then some "sensible-editor"
          else none) = some cfg.editor := by rw [if_pos hc1]
      have heval := mainModel_eval_editor cfg avail promptYes now loadDT args fs
        cfg.editor hch
      have hne1 : (mainModel (some cfg) avail promptYes now loadDT args fs).outcome
          ≠ .ok 1 := by
        rw [heval]
        by_cases hcond : (!fs.dirExists cfg.journal_path && !promptYes) = true
        · rw [if_pos hcond]
          simp
        · rw [if_neg hcond]
          cases hres : resolveDates now cfg.hours_past_midnight_included_in_day
              args.dates with
          | error e => simp [hres]
          | ok ds => simp [hres]
      refine ⟨iff_of_false hne1 ?_, fun h => absurd h hne1, ?_, ?_⟩
      · rintro (h | ⟨cfg2, hc, h1, h2⟩)
        · exact Option.noConfusion h
        · have he := Option.some.inj hc
          rw [← he, hc1] at h1
          exact Bool.noConfusion h1
      · intro cfg2 hc hedA hrootF hpF
        have he := Option.some.inj hc
        subst he
        rw [heval, if_pos (by rw [hrootF, hpF]; rfl)]
      · intro cfg2 ds hc hedA hrootT hres
        have he := Option.some.inj hc
        subst he
        have hcond : (!fs.dirExists cfg.journal_path && !promptYes) = false := by
          rcases hrootT with h | h <;> simp [h]
        rw [heval, if_neg (by simp [hcond])]
        simp [hres]
    · have hc1f : avail.contains cfg.editor = false := by
        revert hc1
        cases avail.contains cfg.editor <;> simp
      by_cases hc2 : avail.contains "sensible-editor" = true
      · have hch : (if avail.contains cfg.editor then some cfg.editor
            else if avail.contains "sensible-editor" then some "sensible-editor"
            else none) = some "sensible-editor" := by rw [if_neg hc1, if_pos hc2]
        have heval := mainModel_eval_editor cfg avail promptYes now loadDT args fs
          "sensible-editor" hch
        have hne1 : (mainModel (some cfg) avail promptYes now loadDT args fs).outcome
            ≠ .ok 1 := by
          rw [heval]
          by_cases hcond : (!fs.dirExists cfg.journal_path && !promptYes) = true
          · rw [if_pos hcond]
            simp
          · rw [if_neg hcond]
            cases hres : resolveDates now cfg.hours_past_midnight_included_in_day
                args.dates with
            | error e => simp [hres]
            | ok ds => simp [hres]
        refine ⟨iff_of_false hne1 ?_, fun h => absurd h hne1, ?_, ?_⟩
        · rintro (h | ⟨cfg2, hc, h1, h2⟩)
          · exact Option.noConfusion h
          · rw [hc2] at h2
            exact Bool.noConfusion h2
        · intro cfg2 hc hedA hrootF hpF
          have he := Option.some.inj hc
          subst he
          rw [heval, if_pos (by rw [hrootF, hpF]; rfl)]
        · intro cfg2 ds hc hedA hrootT hres
          have he := Option.some.inj hc
          subst he
          have hcond : (!fs.dirExists cfg.journal_path && !promptYes) = false := by
            rcases hrootT with h | h <;> simp [h]
          rw [heval, if_neg (by simp [hcond])]
          simp [hres]
      · have hc2f : avail.contains "sensible-editor" = false := by
          revert hc2
          cases avail.contains "sensible-editor" <;> simp
        have hch : (if avail.contains cfg.editor then some cfg.editor
            else if avail.contains "sensible-editor" then some "sensible-editor"
            else none) = none := by rw [if_neg hc1, if_neg hc2]
        have heval : mainModel (some cfg) avail promptYes now loadDT args fs
            = ⟨.ok 1, fs, [.errMsg (cfg.editor ++ " not available!")]⟩ := by
          simp only [mainModel, hch]
        refine ⟨?_, ?_, ?_, ?_⟩
        · rw [heval]
          exact iff_of_true rfl (Or.inr ⟨cfg, rfl, hc1f, hc2f⟩)
        · intro _
          rw [heval]
          exact ⟨fun p => by simp, fun n p => by simp⟩
        · intro cfg2 hc hedA hrootF hpF
          have he := Option.some.inj hc
          subst he
          rcases hedA with h | h
          · rw [h] at hc1f
            exact Bool.noConfusion hc1f
          · rw [h] at hc2f
            exact Bool.noConfusion hc2f
        · intro cfg2 ds hc hedA hrootT hres
          have he := Option.some.inj hc
          subst he
          rcases hedA with h | h
          · rw [h] at hc1f
            exact Bool.noConfusion hc1f
          · rw [h] at hc2f
            exact Bool.noConfusion hc2f

theorem claim_C10_exit_codes_witness :
    (mainModel none [] false ⟨738886, 9, 0⟩ ⟨738886, 9, 0⟩
        ⟨[], false, false⟩ ⟨[], []⟩).outcome = .ok 1 :=
  (claim_C10_exit_codes none [] false ⟨738886, 9, 0⟩ ⟨738886, 9, 0⟩
    ⟨[], false, false⟩ ⟨[], []⟩).1.mpr (Or.inl rfl)
